import Mathlib

set_option maxHeartbeats 1000000
set_option maxRecDepth 4000

/-!
Verification of `solarview.py` (Solarview, a Growatt PV-production viewer).

The development shallowly embeds the program's data model and the parts of
`GrowattServerData.__init__`, `GrowattServerData.downloadgrowattdata`,
`GrowattServerData.yearsavailablelocally`, `Projection.power_to_color`,
`SolarviewApp.plot_production_pil` and `hash_password` that the claims are
about.  Machine floats in the source only ever hold values produced by exact
small-integer arithmetic at the places the claims touch, so they are embedded
as rationals; Python dicts are embedded as insertion-ordered association
lists; network calls and the filesystem are explicit inputs.
-/

/-! ### Calendar (embedding of the `datetime` facts the program relies on) -/

/-- Gregorian leap-year rule, as used by Python `datetime`. -/
def isLeapYear (y : Nat) : Bool := y % 4 == 0 && (y % 100 != 0 || y % 400 == 0)

/-- Number of days of month `m` in year `y`. -/
def daysInMonth (y m : Nat) : Nat :=
  if m = 2 then (if isLeapYear y then 29 else 28)
  else if m = 4 ∨ m = 6 ∨ m = 9 ∨ m = 11 then 30
  else 31

/-- A calendar date.  The program keys its per-day cache by ISO `"YYYY-MM-DD"`
strings; for zero-padded dates those strings compare lexicographically exactly
like the `(year, month, day)` triple, which `Date.key` encodes numerically. -/
structure Date where
  year : Nat
  month : Nat
  day : Nat
deriving DecidableEq

/-- Numeric encoding of the ISO date string; for valid dates the `≤` order on
`key` coincides with lexicographic order of the `"YYYY-MM-DD"` strings. -/
def Date.key (d : Date) : Nat := d.year * 10000 + d.month * 100 + d.day

/-- The date is a real calendar date. -/
def Date.valid (d : Date) : Prop :=
  1 ≤ d.month ∧ d.month ≤ 12 ∧ 1 ≤ d.day ∧ d.day ≤ daysInMonth d.year d.month

instance (d : Date) : Decidable d.valid := by unfold Date.valid; infer_instance

/-- The next calendar day (`date + timedelta(1)`). -/
def Date.next (d : Date) : Date :=
  if d.day < daysInMonth d.year d.month then ⟨d.year, d.month, d.day + 1⟩
  else if d.month < 12 then ⟨d.year, d.month + 1, 1⟩
  else ⟨d.year + 1, 1, 1⟩

/-- Days in years `1 .. y-1` (proleptic Gregorian). -/
def daysBeforeYear (y : Nat) : Nat :=
  365 * (y - 1) + (y - 1) / 4 - (y - 1) / 100 + (y - 1) / 400

/-- Days in months `1 .. m-1` of year `y`. -/
def daysBeforeMonth (y m : Nat) : Nat :=
  (List.range' 1 (m - 1)).foldl (fun a k => a + daysInMonth y k) 0

/-- Day ordinal of a date; differences of ordinals embed
`(d1 - d2).days` of Python `datetime` for dates at midnight. -/
def Date.ord (d : Date) : Nat :=
  daysBeforeYear d.year + daysBeforeMonth d.year d.month + d.day

/-- `(a - b).days` for midnight datetimes. -/
def dateDiff (a b : Date) : Int := (a.ord : Int) - (b.ord : Int)

/-- `n` consecutive days starting at `s`. -/
def dateList : Date → Nat → List Date
  | _, 0 => []
  | s, n + 1 => s :: dateList s.next n

/-- The program's `daterange(start, end)` generator: all days from `start` to
`end` inclusive, empty when `end`'s day precedes `start`'s. -/
def daterange (s e : Date) : List Date := dateList s (dateDiff e s + 1).toNat

/-! ### Python dicts as insertion-ordered association lists -/

/-- Dict lookup (first matching key). -/
def alookup {κ β : Type} [DecidableEq κ] : List (κ × β) → κ → Option β
  | [], _ => none
  | p :: rest, k => if p.1 = k then some p.2 else alookup rest k

/-- Replace the value stored at an existing key. -/
def mapEntry {κ β : Type} [DecidableEq κ] (m : List (κ × β)) (k : κ) (f : β → β) :
    List (κ × β) :=
  m.map (fun p => if p.1 = k then (p.1, f p.2) else p)

/-- `if k not in m: m[k] = v` — append the binding when the key is absent. -/
def ensureKey {κ β : Type} [DecidableEq κ] (m : List (κ × β)) (k : κ) (v : β) :
    List (κ × β) :=
  if (alookup m k).isSome then m else m ++ [(k, v)]

/-- Python dict assignment `m[k] = v`. -/
def aset {κ β : Type} [DecidableEq κ] (m : List (κ × β)) (k : κ) (v : β) :
    List (κ × β) :=
  if (alookup m k).isSome then mapEntry m k (fun _ => v) else m ++ [(k, v)]

/-! ### Data model -/

/-- `ShinePhoneDayData`: one cached day — date, daily energy total (kWh) and
the intraday samples, keyed by time-of-day string. -/
structure ShinePhoneDayData where
  datestr : Date
  todayenergy : ℚ
  samples : List (String × ℚ)
deriving DecidableEq

/-- `max(self.days.keys())` over the date keys of the cached day map (Python
compares the ISO strings; for valid dates that is the `Date.key` order). -/
def maxKeyOf : List (Date × ShinePhoneDayData) → Date
  | [] => ⟨0, 1, 1⟩
  | p :: rest => rest.foldl (fun a q => if a.key < q.1.key then q.1 else a) p.1


/-! ### Remote server model -/

/-- The three failure classes `downloadgrowattdata` catches:
`LoginError`, `GrowattApiError` and `requests.exceptions.ConnectionError`. -/
inductive GrowattFailure where
  | loginError
  | apiError
  | connectionError
deriving DecidableEq

/-- One sync call's view of the remote server: the outcome of each request it
may issue.  (`plant_info["data"][0]` is assumed present on success, as the
source does unchecked.) -/
structure ServerModel where
  login : Option GrowattFailure
  plant_list : Except GrowattFailure String
  total_detail : Except GrowattFailure (List (Int × ℚ))
  day_detail : Date → Except GrowattFailure (String × List (String × ℚ))
  month_detail : Nat → Nat → Except GrowattFailure (List (Nat × ℚ))

/-- The mutable attributes of `GrowattServerData` the sync touches.  The
`plant_id`/`plant_name` attributes are unset before first assignment in the
source; that is modelled as `""`. -/
structure SyncState where
  days : List (Date × ShinePhoneDayData)
  year_complete : Bool
  yearproduction : ℚ
  yearsavailableonserver : List (Int × ℚ)
  plant_id : String
  plant_name : String
deriving DecidableEq

/-- `datetimestampstr.split(" ")[1]` — the time part of a `"date time"` sample
key.  (The source indexes position 1 unchecked; keys without a space would
crash it and are outside the modelled inputs.) -/
def timePart (s : String) : String := (s.splitOn " ").getD 1 ""

/-- `int(100 * daycount / nr_of_days)`, the value sent to the progress sink.
Python divides two nonnegative ints in float and truncates with `int()`; for
these operands (`daycount ≤ nr_of_days ≤ 366`) the exact ratio is at least
`1/366` away from any other integer, far beyond one float ulp, so the result
equals truncating integer division. -/
def progressValue (daycount : Nat) (nr_of_days : Int) : Int :=
  Int.tdiv (100 * (daycount : Int)) nr_of_days

/-- One successful `Timespan.day` merge of `downloadgrowattdata`: update the
plant name if it changed, create the date's record when absent and merge every
returned `"date time" -> power` entry into its sample map. -/
def processDayData (st : SyncState) (d : Date) (pname : String)
    (data : List (String × ℚ)) : SyncState :=
  let st1 := if st.plant_name ≠ pname then { st with plant_name := pname } else st
  let days1 := ensureKey st1.days d ⟨d, 0, []⟩
  let days2 := data.foldl
    (fun ds kv => mapEntry ds d
      (fun r => { r with samples := aset r.samples (timePart kv.1) kv.2 })) days1
  { st1 with days := days2 }

structure DayLoopOut where
  st : SyncState
  daycount : Nat
  fetched : List Date
  progress : List Int
  ok : Bool

/-- The per-day fetch loop of `downloadgrowattdata`: for each date, when a
progress sink was supplied bump `daycount` and invoke the sink with
`int(100 * daycount / nr_of_days)`, then request the `Timespan.day` detail and
merge it.  A failure aborts the loop, keeping everything merged so far. -/
def dayLoop (srv : ServerModel) (hp : Bool) (n : Int) :
    List Date → SyncState → Nat → DayLoopOut
  | [], st, daycount => ⟨st, daycount, [], [], true⟩
  | d :: rest, st, daycount =>
      let dc := if hp then daycount + 1 else daycount
      let prog : List Int := if hp then [progressValue dc n] else []
      match srv.day_detail d with
      | .error _ => ⟨st, dc, [d], prog, false⟩
      | .ok pd =>
          let st1 := processDayData st d pd.1 pd.2
          let out := dayLoop srv hp n rest st1 dc
          ⟨out.st, out.daycount, d :: out.fetched, prog ++ out.progress, out.ok⟩

/-- The distinct `(year, month)` pairs of the fetched range, in first-seen
order. -/
def monthsOf (dates : List Date) : List (Nat × Nat) :=
  dates.foldl
    (fun ms d => if (d.year, d.month) ∈ ms then ms else ms ++ [(d.year, d.month)]) []

/-- Merge one `Timespan.month` response: for every returned day-of-month,
create the date's record when absent and overwrite its daily energy total. -/
def processMonthData (st : SyncState) (y m : Nat) (mdata : List (Nat × ℚ)) :
    SyncState :=
  mdata.foldl
    (fun st de =>
      let d : Date := ⟨y, m, de.1⟩
      let days1 := ensureKey st.days d ⟨d, 0, []⟩
      { st with days := mapEntry days1 d (fun r => { r with todayenergy := de.2 }) })
    st

/-- The month loop of `downloadgrowattdata`; a failure aborts it, keeping the
months merged so far. -/
def monthLoop (srv : ServerModel) : List (Nat × Nat) → SyncState → SyncState × Bool
  | [], st => (st, true)
  | ym :: rest, st =>
      match srv.month_detail ym.1 ym.2 with
      | .error _ => (st, false)
      | .ok mdata => monthLoop srv rest (processMonthData st ym.1 ym.2 mdata)

structure DownloadOut where
  st : SyncState
  result : Bool
  fetched : List Date
  progress : List Int

/-- `GrowattServerData.downloadgrowattdata`.  All three exception classes are
caught inside the function and turned into `result = False`; the state keeps
exactly what had been merged before the failure point.  (A `LoginError` is in
fact already caught by the earlier `except GrowattApiError` clause, being a
subclass; either way `result = False`.) -/
def downloadgrowattdata (srv : ServerModel) (hp : Bool) (st0 : SyncState)
    (start_date end_date : Date) : DownloadOut :=
  match srv.login with
  | some _ => ⟨st0, false, [], []⟩
  | none =>
      match srv.plant_list with
      | .error _ => ⟨st0, false, [], []⟩
      | .ok pid =>
          let st1 := { st0 with plant_id := pid, plant_name := "" }
          match srv.total_detail with
          | .error _ => ⟨st1, false, [], []⟩
          | .ok tot =>
              let yos := tot.filter (fun p => 0 < p.2)
              let st2 := { st1 with
                           yearsavailableonserver := yos
                           yearproduction := (alookup yos (start_date.year : Int)).getD 0 }
              let n : Int := dateDiff end_date start_date + 1
              let dates := daterange start_date end_date
              let lo := dayLoop srv hp n dates st2 0
              if lo.ok then
                let mo := monthLoop srv (monthsOf dates) lo.st
                ⟨mo.1, mo.2, lo.fetched, lo.progress⟩
              else
                ⟨lo.st, false, lo.fetched, lo.progress⟩

/-! ### Local cache directory scan and the available-years union -/

/-- Whitespace Python `int()` strips around a numeric literal. -/
def isPySpace (c : Char) : Bool := c = ' ' ∨ c = '\t' ∨ c = '\n' ∨ c = '\r'

/-- Digit-run value, `none` unless the characters are one or more ASCII
digits. -/
def digitsVal (cs : List Char) : Option Nat :=
  if cs = [] then none
  else if cs.all Char.isDigit then
    some (cs.foldl (fun a c => a * 10 + (c.toNat - 48)) 0)
  else none

/-- Python `int(str)` on ASCII literals: optional surrounding whitespace, an
optional sign, then digits.  (Underscore digit separators and non-ASCII digits
are outside the modelled inputs.)  `none` embeds the `ValueError` the caller
catches. -/
def pythonInt (cs : List Char) : Option Int :=
  let t1 := cs.dropWhile isPySpace
  let t := (t1.reverse.dropWhile isPySpace).reverse
  match t with
  | '+' :: rest => (digitsVal rest).map (fun nn => (nn : Int))
  | '-' :: rest => (digitsVal rest).map (fun nn => -(nn : Int))
  | rest => (digitsVal rest).map (fun nn => (nn : Int))

/-- `GrowattServerData.yearsavailablelocally`: for every file the glob
returned, keep the filename characters at the template's `?` positions and
parse them with `int()`, skipping files whose token does not parse. -/
def yearsavailablelocally (template : List Char) (files : List (List Char)) :
    List Int :=
  files.foldl
    (fun years f =>
      let yearstr := (f.zip template).filterMap
        (fun p => if p.2 = '?' then some p.1 else none)
      match pythonInt yearstr with
      | some y => years ++ [y]
      | none => years)
    []

/-- Lines 346–350 of `__init__`: start from the local years and append every
server year not already in the list. -/
def addServerYears (localYears serverYears : List Int) : List Int :=
  serverYears.foldl (fun acc y => if y ∈ acc then acc else acc ++ [y]) localYears

/-- The available-years list: local years, then the new server years, then
`list.sort()` (ascending). -/
def availableYearsOf (localYears serverYears : List Int) : List Int :=
  List.insertionSort (fun a b => a ≤ b) (addServerYears localYears serverYears)

/-! ### The sync call -/

/-- All external inputs of one `GrowattServerData(year, setprogress)` call:
the current date, the requested year, the pickle file's contents for that year
(the `(year_complete, yearproduction, days)` triple; `none` when the file does
not exist), the server's behaviour, whether a progress sink was supplied, and
the cache directory contents `yearsavailablelocally` scans. -/
structure SyncInput where
  now : Date
  year : Nat
  cache : Option (Bool × ℚ × List (Date × ShinePhoneDayData))
  server : ServerModel
  setprogress : Bool
  pickle_template : List Char
  files : List (List Char)

/-- Outcome of one sync call: final state, the computed fetch range, whether a
download was attempted and succeeded, whether the pickle was written, the
dates whose day detail was requested, the progress values sent to the sink,
and the available-years list. -/
structure SyncResult where
  st : SyncState
  start_date : Date
  end_date : Date
  fetchAttempted : Bool
  fetchOk : Option Bool
  saved : Bool
  fetched : List Date
  progress : List Int
  yearsavailable : List Int

/-- The part of `__init__` after the start/end dates are determined: the
`if not self.year_complete` fetch guard, the completeness decision, the
persist, and the available-years union. -/
def runSyncCore (inp : SyncInput) (st0 : SyncState) (start_date end_date : Date) :
    SyncResult :=
  let localYears := yearsavailablelocally inp.pickle_template inp.files
  if st0.year_complete then
    { st := st0
      start_date := start_date
      end_date := end_date
      fetchAttempted := false
      fetchOk := none
      saved := false
      fetched := []
      progress := []
      yearsavailable :=
        availableYearsOf localYears (st0.yearsavailableonserver.map Prod.fst) }
  else
    let dl := downloadgrowattdata inp.server inp.setprogress st0 start_date end_date
    if dl.result then
      let st1 :=
        if start_date.year < inp.now.year then { dl.st with year_complete := true }
        else dl.st
      { st := st1
        start_date := start_date
        end_date := end_date
        fetchAttempted := true
        fetchOk := some true
        saved := true
        fetched := dl.fetched
        progress := dl.progress
        yearsavailable :=
          availableYearsOf localYears (st1.yearsavailableonserver.map Prod.fst) }
    else
      { st := dl.st
        start_date := start_date
        end_date := end_date
        fetchAttempted := true
        fetchOk := some false
        saved := false
        fetched := dl.fetched
        progress := dl.progress
        yearsavailable :=
          availableYearsOf localYears (dl.st.yearsavailableonserver.map Prod.fst) }

/-- `GrowattServerData.__init__` for an explicitly requested year (the only
way the application constructs it).  With a cache file present, the fetch
resumes from `max(self.days.keys())` when the day map is non-empty, else from
Jan 1; without a cache file it starts from Jan 1 of the requested year. -/
def runSync (inp : SyncInput) : SyncResult :=
  let end_date := if inp.year = inp.now.year then inp.now else ⟨inp.year, 12, 31⟩
  match inp.cache with
  | some c =>
      let st0 : SyncState :=
        { days := c.2.2
          year_complete := c.1
          yearproduction := c.2.1
          yearsavailableonserver := []
          plant_id := "plant_id"
          plant_name := "plant_name" }
      let start_date := if c.2.2.length > 0 then maxKeyOf c.2.2 else ⟨inp.year, 1, 1⟩
      runSyncCore inp st0 start_date end_date
  | none =>
      let st0 : SyncState :=
        { days := []
          year_complete := false
          yearproduction := 0
          yearsavailableonserver := []
          plant_id := ""
          plant_name := "" }
      runSyncCore inp st0 ⟨inp.year, 1, 1⟩ end_date

/-! ### Projection and renderer -/

/-- Layout constants from `Projection.__init__` (pixels). -/
def prj_height : ℚ := 800

def prj_bottommargin : ℚ := 50

def prj_leftmargin : ℚ := 50

def prj_linewidth : ℚ := 2

def prj_pixels_per_day : ℚ := prj_linewidth + 1

def prj_pixels_per_kwh : ℚ := 6

def prj_pixels_per_hour : ℚ := 30

def prj_fiveoclockbase : ℚ := prj_height - prj_bottommargin - 35 * prj_pixels_per_kwh

/-- `Projection.power_to_color_table`; `float("inf")` is embedded as `none`
(every power value compares `≤` to it). -/
def power_to_color_table : List (Option ℚ × String) :=
  [(some 0, "#C0C0C0"),
   (some 500, "#87CEFA"),
   (some 1000, "#00FF00"),
   (some 2000, "#FFFF00"),
   (some 3000, "#FFA500"),
   (some 4000, "#FF0000"),
   (none, "#B00000")]

/-- `power <= upperbound`, with `none` standing for the infinite bound. -/
def leUpperBound (power : ℚ) : Option ℚ → Bool
  | none => true
  | some b => power ≤ b

/-- `Projection.power_to_color`: scan the bucket table in order and return the
first color whose upper bound the power does not exceed; Python implicitly
returns `None` when the loop falls through. -/
def power_to_color (t : List (Option ℚ × String)) (power : ℚ) : Option String :=
  match t with
  | [] => none
  | b :: rest => if leUpperBound power b.1 then some b.2 else power_to_color rest power

/-- `isotime_to_m`: `"HH:MM"` or `"HH:MM:SS"` to minutes.  (`int()` of each
colon-separated part; strings with fewer than two parts or non-numeric parts
would crash the source and are outside the modelled inputs.) -/
def isotime_to_m (timestr : String) : ℚ :=
  let m := (timestr.splitOn ":").map (fun x => (((pythonInt x.toList).getD 0 : Int) : ℚ))
  let result := (m.getD 0 0) * 60 + m.getD 1 0
  if m.length > 2 then result + (m.getD 2 0) / 60 else result

/-- One drawing primitive issued by `plot_production_pil`: the vertical
daily-energy bar (a `draw.line` with `fill=(0,0,128)`), or one 5-minute
heatmap segment (a `draw.line` with the bucket color). -/
inductive PlotCmd where
  | energyBar (x y1 y2 : ℚ)
  | heatSeg (x y1 y2 : ℚ) (color : Option String)
deriving DecidableEq

/-- The draw calls `plot_production_pil` makes for one cached day: the energy
bar only when the sample map is non-empty (`if len(...) > 0`), then one
segment per sample in sorted time order. -/
def plotDay (year : Nat) (d : Date) (r : ShinePhoneDayData) : List PlotCmd :=
  let x := prj_leftmargin + (dateDiff d ⟨year, 1, 1⟩ : ℚ) * prj_pixels_per_day
              + prj_pixels_per_day / 2
  let y_low := prj_height - prj_bottommargin
  let bar : List PlotCmd :=
    if r.samples.length > 0 then
      [.energyBar x y_low (y_low - r.todayenergy * prj_pixels_per_kwh)]
    else []
  let keys := List.insertionSort (fun a b => a ≤ b) (r.samples.map Prod.fst)
  bar ++ keys.map (fun ts =>
    let p := (alookup r.samples ts).getD 0
    let y := prj_fiveoclockbase - ((isotime_to_m ts - 5 * 60) / 60) * prj_pixels_per_hour
    .heatSeg x y (y - (5 / 60) * prj_pixels_per_hour)
      (power_to_color power_to_color_table p))

/-- `SolarviewApp.plot_production_pil`: the bar and heatmap draw calls over
all cached days, in day-map order. -/
def plot_production (year : Nat) (days : List (Date × ShinePhoneDayData)) :
    List PlotCmd :=
  (days.map (fun p => plotDay year p.1 p.2)).flatten

/-! ### Password digest -/

/-- One iteration of the `hash_password` loop:
`password_md5[0:i] + "c" + password_md5[i+1:]` when position `i` holds `'0'`,
else the string unchanged. -/
def replace0 (s : List Char) (i : Nat) : List Char :=
  if s[i]? = some '0' then s.take i ++ 'c' :: s.drop (i + 1) else s

/-- The indices `range(0, len(password_md5), 2)` the loop visits. -/
def hashIndices (n : Nat) : List Nat := List.range' 0 ((n + 1) / 2) 2

/-- The transform `hash_password` applies to the MD5 hex digest (the digest
itself comes from `hashlib`, outside this code base, so the function is
modelled on an arbitrary digest string). -/
def hash_password (s : List Char) : List Char :=
  (hashIndices s.length).foldl replace0 s

/-- Modelled from the spec: replace every character at an even index (counting
from `i`) that is the digit `'0'` by `'c'`, leaving all other characters
unchanged. -/
def hashSpecFrom : Nat → List Char → List Char
  | _, [] => []
  | i, c :: cs => (if i % 2 = 0 ∧ c = '0' then 'c' else c) :: hashSpecFrom (i + 1) cs

/-- Modelled from the spec: the index-wise even-position `'0'` to `'c'`
replacement on the digest. -/
def hashSpec (s : List Char) : List Char := hashSpecFrom 0 s

/-! ### Python `round` (for claim C3's stated formula) -/

/-- Python `round()` on an exact rational: nearest integer, ties to even.
Computed from the reduced numerator and denominator: with `f = ⌊q⌋` the
fractional part is `(q.num - f * q.den) / q.den`, compared against `1/2`. -/
def pythonRound (q : ℚ) : Int :=
  let f := q.num.fdiv (q.den : Int)
  let r2 := 2 * (q.num - f * (q.den : Int))
  if r2 < (q.den : Int) then f
  else if (q.den : Int) < r2 then f + 1
  else if f % 2 = 0 then f else f + 1


/-! ### Spec-side definitions and concrete inputs used by the claims -/

/-- Modelled from the spec: the color of the first bucket in the table whose
upper bound is greater than or equal to the power. -/
def firstBucketColor (t : List (Option ℚ × String)) (power : ℚ) : Option String :=
  (t.find? (fun b => leUpperBound power b.1)).map Prod.snd

/-- The day map loaded from the cache file (empty when no file existed). -/
def cacheDays (inp : SyncInput) : List (Date × ShinePhoneDayData) :=
  match inp.cache with
  | some c => c.2.2
  | none => []

/-- The annual production loaded from the cache file (0 when no file). -/
def cacheProd (inp : SyncInput) : ℚ :=
  match inp.cache with
  | some c => c.2.1
  | none => 0

/-- A server on which every request succeeds trivially. -/
def srvOk : ServerModel :=
  { login := none
    plant_list := .ok "PLANT"
    total_detail := .ok []
    day_detail := fun _ => .ok ("P", [])
    month_detail := fun _ _ => .ok [] }

/-- A server that rejects the login. -/
def srvLoginFail : ServerModel := { srvOk with login := some .loginError }

/-- A server that delivers data for Jan 1 2020 but drops the connection on the
Jan 2 request. -/
def srvDay2Fail : ServerModel :=
  { srvOk with
    day_detail := fun d =>
      if d = ⟨2020, 1, 2⟩ then .error .connectionError
      else .ok ("P", [("2020-01-01 12:00", 100)]) }

/-- A cache populated through March 10 of 2020. -/
def marchCacheDays : List (Date × ShinePhoneDayData) :=
  [(⟨2020, 3, 1⟩, ⟨⟨2020, 3, 1⟩, 3, [("12:00", 100)]⟩),
   (⟨2020, 3, 10⟩, ⟨⟨2020, 3, 10⟩, 4, [("12:00", 150)]⟩)]

/-- Sync of the current year (2020) on March 15 with the cache populated
through March 10. -/
def inputMarchCache : SyncInput :=
  { now := ⟨2020, 3, 15⟩
    year := 2020
    cache := some (false, 0, marchCacheDays)
    server := srvOk
    setprogress := false
    pickle_template := []
    files := [] }

/-- Sync of the current year on Jan 3 with no cache: a three-day fetch range
with a progress sink supplied. -/
def inputThreeDays : SyncInput :=
  { now := ⟨2020, 1, 3⟩
    year := 2020
    cache := none
    server := srvOk
    setprogress := true
    pickle_template := []
    files := [] }

/-- Sync with no cache where the Jan 2 day request drops the connection after
Jan 1 was already merged. -/
def inputDayFail : SyncInput :=
  { now := ⟨2020, 1, 2⟩
    year := 2020
    cache := none
    server := srvDay2Fail
    setprogress := false
    pickle_template := []
    files := [] }

/-- Sync where the login is rejected. -/
def inputLoginFail : SyncInput :=
  { now := ⟨2020, 1, 2⟩
    year := 2020
    cache := none
    server := srvLoginFail
    setprogress := false
    pickle_template := []
    files := [] }

/-- Sync of a past year whose cache file is already complete. -/
def inputCompleteCache : SyncInput :=
  { now := ⟨2021, 5, 1⟩
    year := 2020
    cache := some (true, 7, [(⟨2020, 1, 1⟩, ⟨⟨2020, 1, 1⟩, 2, []⟩)])
    server := srvLoginFail
    setprogress := false
    pickle_template := []
    files := [] }

/-- Sync of the past year 2019 with a cache reaching Dec 30 2019: a two-day
successful fetch whose completeness decision fires. -/
def inputPastYear : SyncInput :=
  { now := ⟨2020, 1, 1⟩
    year := 2019
    cache := some (false, 0, [(⟨2019, 12, 30⟩, ⟨⟨2019, 12, 30⟩, 1, []⟩)])
    server := srvOk
    setprogress := false
    pickle_template := []
    files := [] }

/-- Two cache filenames whose wildcard tokens `int()` parses to the same year
(`"0020"` and `"+020"` both parse to 20). -/
def dupYearFiles : List (List Char) :=
  [("solarviewdata_0020.pkl").toList, ("solarviewdata_+020.pkl").toList]

/-- Sync of a complete-cached year in a directory holding the two duplicate
year files (no network involved). -/
def inputDupYears : SyncInput :=
  { now := ⟨2021, 5, 1⟩
    year := 2020
    cache := some (true, 7, [])
    server := srvOk
    setprogress := false
    pickle_template := ("solarviewdata_????.pkl").toList
    files := dupYearFiles }

/-! ### Association-list lemmas -/

theorem alookup_append_single_ne {κ β : Type} [DecidableEq κ]
    (m : List (κ × β)) (k k' : κ) (v : β) (h : k' ≠ k) :
    alookup (m ++ [(k, v)]) k' = alookup m k' := by
  induction m with
  | nil => simp [alookup, h.symm]
  | cons p rest ih =>
      by_cases hp : p.1 = k'
      · simp [alookup, hp]
      · simp [alookup, hp, ih]

theorem alookup_mapEntry_ne {κ β : Type} [DecidableEq κ]
    (m : List (κ × β)) (k k' : κ) (f : β → β) (h : k' ≠ k) :
    alookup (mapEntry m k f) k' = alookup m k' := by
  induction m with
  | nil => rfl
  | cons p rest ih =>
      simp only [mapEntry, List.map] at ih ⊢
      by_cases hpk : p.1 = k
      · subst hpk
        simp [alookup, Ne.symm h, ih]
      · by_cases hpk' : p.1 = k'
        · simp [alookup, hpk, hpk', h]
        · simp [alookup, hpk, hpk', h, ih]

theorem alookup_mapEntry_eq {κ β : Type} [DecidableEq κ]
    (m : List (κ × β)) (k : κ) (f : β → β) :
    alookup (mapEntry m k f) k = (alookup m k).map f := by
  induction m with
  | nil => rfl
  | cons p rest ih =>
      simp only [mapEntry, List.map] at ih ⊢
      by_cases hpk : p.1 = k
      · subst hpk
        simp [alookup]
      · simp [alookup, hpk, ih]

theorem alookup_append_single_self {κ β : Type} [DecidableEq κ]
    (m : List (κ × β)) (k : κ) (v : β) (h : alookup m k = none) :
    alookup (m ++ [(k, v)]) k = some v := by
  induction m with
  | nil => simp [alookup]
  | cons p rest ih =>
      by_cases hp : p.1 = k
      · simp [alookup, hp] at h
      · simp only [alookup, hp, if_neg, List.cons_append] at h ⊢
        simp only [alookup, hp, if_false] at *
        exact ih h

theorem alookup_ensureKey_ne {κ β : Type} [DecidableEq κ]
    (m : List (κ × β)) (k k' : κ) (v : β) (h : k' ≠ k) :
    alookup (ensureKey m k v) k' = alookup m k' := by
  unfold ensureKey
  split
  · rfl
  · exact alookup_append_single_ne m k k' v h

theorem alookup_ensureKey_isSome {κ β : Type} [DecidableEq κ]
    (m : List (κ × β)) (k : κ) (v : β) :
    (alookup (ensureKey m k v) k).isSome := by
  unfold ensureKey
  by_cases hs : (alookup m k).isSome
  · simp [hs]
  · have hn : alookup m k = none := by
      cases hh : alookup m k
      · rfl
      · exact absurd (by simp [hh]) hs
    simp [hs, alookup_append_single_self m k v hn]

theorem alookup_ensureKey_of_isSome {κ β : Type} [DecidableEq κ]
    (m : List (κ × β)) (k k' : κ) (v : β) (h : (alookup m k').isSome) :
    alookup (ensureKey m k v) k' = alookup m k' := by
  by_cases hk : k' = k
  · subst hk
    simp [ensureKey, h]
  · exact alookup_ensureKey_ne m k k' v hk

theorem alookup_isSome_mem {κ β : Type} [DecidableEq κ]
    (m : List (κ × β)) (p : κ × β) (h : p ∈ m) : (alookup m p.1).isSome := by
  induction m with
  | nil => cases h
  | cons q rest ih =>
      rcases List.mem_cons.mp h with h | h
      · subst h; simp [alookup]
      · by_cases hq : q.1 = p.1
        · simp [alookup, hq]
        · simp [alookup, hq, ih h]

/-! ### Date lemmas -/

theorem daysInMonth_le (y m : Nat) : daysInMonth y m ≤ 31 := by
  unfold daysInMonth
  split
  · split <;> omega
  · split <;> omega

theorem daysInMonth_pos (y m : Nat) : 1 ≤ daysInMonth y m := by
  unfold daysInMonth
  split
  · split <;> omega
  · split <;> omega

theorem Date.next_valid {d : Date} (h : d.valid) : d.next.valid := by
  obtain ⟨h1, h2, h3, h4⟩ := h
  have hp1 := daysInMonth_pos d.year (d.month + 1)
  have hp2 := daysInMonth_pos (d.year + 1) 1
  unfold Date.next Date.valid
  split_ifs with hd hm <;> dsimp only <;> omega

theorem Date.key_lt_next {d : Date} (h : d.valid) : d.key < d.next.key := by
  obtain ⟨h1, h2, h3, h4⟩ := h
  have h31 := daysInMonth_le d.year d.month
  unfold Date.next Date.key
  split_ifs with hd hm <;> dsimp only <;> omega

theorem dateList_valid {s : Date} (hs : s.valid) :
    ∀ n, ∀ d ∈ dateList s n, d.valid ∧ s.key ≤ d.key := by
  intro n
  induction n generalizing s hs with
  | zero => intro d hd; cases hd
  | succ n ih =>
      intro d hd
      rcases List.mem_cons.mp hd with h | h
      · subst h; exact ⟨hs, le_refl _⟩
      · obtain ⟨hv, hk⟩ := ih (Date.next_valid hs) d h
        exact ⟨hv, le_trans (le_of_lt (Date.key_lt_next hs)) hk⟩

theorem foldl_maxKey_mem (rest : List (Date × ShinePhoneDayData)) :
    ∀ a : Date,
      rest.foldl (fun a q => if a.key < q.1.key then q.1 else a) a = a ∨
      rest.foldl (fun a q => if a.key < q.1.key then q.1 else a) a ∈
        rest.map Prod.fst := by
  induction rest with
  | nil => intro a; exact Or.inl rfl
  | cons q rest ih =>
      intro a
      simp only [List.foldl, List.map]
      by_cases h : a.key < q.1.key
      · simp only [h, if_true]
        rcases ih q.1 with h' | h'
        · exact Or.inr (by rw [h']; exact List.mem_cons_self _ _)
        · exact Or.inr (List.mem_cons_of_mem _ h')
      · simp only [h, if_false]
        rcases ih a with h' | h'
        · exact Or.inl h'
        · exact Or.inr (List.mem_cons_of_mem _ h')

theorem foldl_maxKey_le (rest : List (Date × ShinePhoneDayData)) :
    ∀ a : Date,
      a.key ≤ (rest.foldl (fun a q => if a.key < q.1.key then q.1 else a) a).key ∧
      ∀ p ∈ rest,
        p.1.key ≤ (rest.foldl (fun a q => if a.key < q.1.key then q.1 else a) a).key := by
  induction rest with
  | nil => intro a; exact ⟨le_refl _, by intro p hp; cases hp⟩
  | cons q rest ih =>
      intro a
      simp only [List.foldl]
      by_cases h : a.key < q.1.key
      · simp only [h, if_true]
        obtain ⟨h1, h2⟩ := ih q.1
        refine ⟨le_trans (le_of_lt h) h1, ?_⟩
        intro p hp
        rcases List.mem_cons.mp hp with hh | hh
        · rw [hh]; exact h1
        · exact h2 p hh
      · simp only [h, if_false]
        obtain ⟨h1, h2⟩ := ih a
        refine ⟨h1, ?_⟩
        intro p hp
        rcases List.mem_cons.mp hp with hh | hh
        · rw [hh]; exact le_trans (by omega) h1
        · exact h2 p hh

theorem maxKeyOf_mem (ds : List (Date × ShinePhoneDayData)) (h : ds ≠ []) :
    maxKeyOf ds ∈ ds.map Prod.fst := by
  match ds with
  | [] => exact absurd rfl h
  | p :: rest =>
      show rest.foldl (fun a q => if a.key < q.1.key then q.1 else a) p.1 ∈ _
      rcases foldl_maxKey_mem rest p.1 with h' | h'
      · rw [h']; exact List.mem_cons_self _ _
      · exact List.mem_cons_of_mem _ h'

theorem le_maxKeyOf (ds : List (Date × ShinePhoneDayData)) (p : Date × ShinePhoneDayData)
    (hp : p ∈ ds) : p.1.key ≤ (maxKeyOf ds).key := by
  match ds with
  | [] => cases hp
  | q :: rest =>
      show p.1.key ≤ (rest.foldl (fun a q => if a.key < q.1.key then q.1 else a) q.1).key
      obtain ⟨h1, h2⟩ := foldl_maxKey_le rest q.1
      rcases List.mem_cons.mp hp with hh | hh
      · rw [hh]; exact h1
      · exact h2 p hh

/-! ### Color lookup (claims C9 and C10) -/

theorem power_to_color_eq_firstBucket (t : List (Option ℚ × String)) (p : ℚ) :
    power_to_color t p = firstBucketColor t p := by
  induction t with
  | nil => rfl
  | cons b rest ih =>
      unfold power_to_color firstBucketColor
      by_cases h : leUpperBound p b.1
      · simp [List.find?, h]
      · simp only [h, if_false]
        rw [ih]
        unfold firstBucketColor
        simp [List.find?, h]

/-- Claim C9: for every power value, `Projection.power_to_color` scans the
bucket table in ascending bound order and returns the color of the first
bucket whose upper bound is greater than or equal to the power (upper bound
inclusive); on the concrete table, power 500 maps to the 500-bound bucket's
color `"#87CEFA"` and power 501 maps to the 1000-bound bucket's color
`"#00FF00"`. -/
theorem c9_power_to_color_first_bucket :
    (∀ p : ℚ,
      power_to_color power_to_color_table p = firstBucketColor power_to_color_table p) ∧
    power_to_color power_to_color_table 500 = some "#87CEFA" ∧
    power_to_color power_to_color_table 501 = some "#00FF00" :=
  ⟨fun p => power_to_color_eq_firstBucket power_to_color_table p, by decide, by decide⟩

/-- Witness for C9 at the concrete boundary power 500. -/
theorem c9_witness :
    power_to_color power_to_color_table 500 = firstBucketColor power_to_color_table 500 :=
  c9_power_to_color_first_bucket.1 500

/-- Claim C10: the color lookup is total — every power value (zero, negative,
or arbitrarily large) receives a color, because the final bucket's bound is
infinite, so the fall-through branch returning no color is unreachable. -/
theorem c10_power_to_color_total :
    ∀ p : ℚ, (power_to_color power_to_color_table p).isSome = true := by
  intro p
  simp only [power_to_color_table, power_to_color, leUpperBound]
  split_ifs <;> rfl

/-- Witness for C10 at power 500. -/
theorem c10_witness : (power_to_color power_to_color_table 500).isSome = true :=
  c10_power_to_color_total 500

/-! ### Renderer on sample-free days (claim C2) -/

/-- Counterexample to claim C2: a DayRecord with total energy `5.2` and an
empty sample map produces NO draw calls at all — in particular the energy bar
the claim requires is not drawn, because `plot_production_pil` draws the bar
only inside `if len(samples) > 0`. -/
theorem c2_counterexample :
    plot_production 2020 [(⟨2020, 3, 5⟩, ⟨⟨2020, 3, 5⟩, 52 / 10, []⟩)] = [] ∧
    (52 / 10 : ℚ) ≠ 0 := by
  constructor
  · rfl
  · norm_num

/-- Claim C2 (amended): for a DayRecord with an empty sample map the renderer
draws nothing for that date — no heatmap segments, and also no daily-energy
bar, whatever its total energy; the bar is emitted only when the sample map is
non-empty. -/
theorem c2_amended_no_draw_without_samples (year : Nat) (d : Date)
    (r : ShinePhoneDayData) (h : r.samples = []) : plotDay year d r = [] := by
  unfold plotDay
  rw [h]
  simp

/-- Witness for the amended C2 on the 5.2-kWh sample-free day. -/
theorem c2_amended_witness :
    (ShinePhoneDayData.mk ⟨2020, 3, 5⟩ (52 / 10) []).samples = [] ∧
    plotDay 2020 ⟨2020, 3, 5⟩ ⟨⟨2020, 3, 5⟩, 52 / 10, []⟩ = [] :=
  ⟨rfl, c2_amended_no_draw_without_samples 2020 ⟨2020, 3, 5⟩ _ rfl⟩

/-! ### Sync-engine lemmas -/

theorem dateList_length (s : Date) (n : Nat) : (dateList s n).length = n := by
  induction n generalizing s with
  | zero => rfl
  | succ n ih => simp [dateList, ih]

theorem processDayData_year_complete (st : SyncState) (d : Date) (pname : String)
    (data : List (String × ℚ)) :
    (processDayData st d pname data).year_complete = st.year_complete := by
  unfold processDayData
  by_cases h : st.plant_name ≠ pname <;> simp [h]

theorem processDayData_yearproduction (st : SyncState) (d : Date) (pname : String)
    (data : List (String × ℚ)) :
    (processDayData st d pname data).yearproduction = st.yearproduction := by
  unfold processDayData
  by_cases h : st.plant_name ≠ pname <;> simp [h]

theorem processDayData_yearsavailableonserver (st : SyncState) (d : Date)
    (pname : String) (data : List (String × ℚ)) :
    (processDayData st d pname data).yearsavailableonserver =
      st.yearsavailableonserver := by
  unfold processDayData
  by_cases h : st.plant_name ≠ pname <;> simp [h]

theorem dayLoop_year_complete (srv : ServerModel) (hp : Bool) (n : Int) :
    ∀ (dates : List Date) (st : SyncState) (dc : Nat),
      (dayLoop srv hp n dates st dc).st.year_complete = st.year_complete := by
  intro dates
  induction dates with
  | nil => intro st dc; rfl
  | cons d rest ih =>
      intro st dc
      unfold dayLoop
      cases srv.day_detail d with
      | error e => rfl
      | ok pd =>
          dsimp only
          rw [ih, processDayData_year_complete]

theorem dayLoop_yearsavailableonserver (srv : ServerModel) (hp : Bool) (n : Int) :
    ∀ (dates : List Date) (st : SyncState) (dc : Nat),
      (dayLoop srv hp n dates st dc).st.yearsavailableonserver =
        st.yearsavailableonserver := by
  intro dates
  induction dates with
  | nil => intro st dc; rfl
  | cons d rest ih =>
      intro st dc
      unfold dayLoop
      cases srv.day_detail d with
      | error e => rfl
      | ok pd =>
          dsimp only
          rw [ih, processDayData_yearsavailableonserver]

theorem processMonthData_year_complete (y m : Nat) :
    ∀ (mdata : List (Nat × ℚ)) (st : SyncState),
      (processMonthData st y m mdata).year_complete = st.year_complete := by
  intro mdata
  induction mdata with
  | nil => intro st; rfl
  | cons de rest ih =>
      intro st
      show (processMonthData _ y m rest).year_complete = _
      rw [ih]

theorem processMonthData_yearsavailableonserver (y m : Nat) :
    ∀ (mdata : List (Nat × ℚ)) (st : SyncState),
      (processMonthData st y m mdata).yearsavailableonserver =
        st.yearsavailableonserver := by
  intro mdata
  induction mdata with
  | nil => intro st; rfl
  | cons de rest ih =>
      intro st
      show (processMonthData _ y m rest).yearsavailableonserver = _
      rw [ih]

theorem monthLoop_year_complete (srv : ServerModel) :
    ∀ (months : List (Nat × Nat)) (st : SyncState),
      (monthLoop srv months st).1.year_complete = st.year_complete := by
  intro months
  induction months with
  | nil => intro st; rfl
  | cons ym rest ih =>
      intro st
      unfold monthLoop
      cases srv.month_detail ym.1 ym.2 with
      | error e => rfl
      | ok mdata =>
          dsimp only
          rw [ih, processMonthData_year_complete]

theorem monthLoop_yearsavailableonserver (srv : ServerModel) :
    ∀ (months : List (Nat × Nat)) (st : SyncState),
      (monthLoop srv months st).1.yearsavailableonserver =
        st.yearsavailableonserver := by
  intro months
  induction months with
  | nil => intro st; rfl
  | cons ym rest ih =>
      intro st
      unfold monthLoop
      cases srv.month_detail ym.1 ym.2 with
      | error e => rfl
      | ok mdata =>
          dsimp only
          rw [ih, processMonthData_yearsavailableonserver]

theorem download_year_complete (srv : ServerModel) (hp : Bool) (st0 : SyncState)
    (s e : Date) :
    (downloadgrowattdata srv hp st0 s e).st.year_complete = st0.year_complete := by
  unfold downloadgrowattdata
  cases srv.login with
  | some f => rfl
  | none =>
      cases srv.plant_list with
      | error f => rfl
      | ok pid =>
          cases srv.total_detail with
          | error f => rfl
          | ok tot =>
              dsimp only
              split
              · dsimp only
                rw [monthLoop_year_complete, dayLoop_year_complete]
              · dsimp only
                rw [dayLoop_year_complete]

theorem alookup_foldl_mapEntry_ne {κ β γ : Type} [DecidableEq κ]
    (k k' : κ) (h : k' ≠ k) (f : γ → β → β) :
    ∀ (l : List γ) (m : List (κ × β)),
      alookup (l.foldl (fun ds kv => mapEntry ds k (f kv)) m) k' = alookup m k' := by
  intro l
  induction l with
  | nil => intro m; rfl
  | cons kv rest ih =>
      intro m
      show alookup (rest.foldl _ (mapEntry m k (f kv))) k' = _
      rw [ih, alookup_mapEntry_ne _ _ _ _ h]

theorem processDayData_days_ne (st : SyncState) (d : Date) (pname : String)
    (data : List (String × ℚ)) (d' : Date) (h : d' ≠ d) :
    alookup (processDayData st d pname data).days d' = alookup st.days d' := by
  unfold processDayData
  dsimp only
  rw [alookup_foldl_mapEntry_ne d d' h, alookup_ensureKey_ne _ _ _ _ h]
  by_cases hn : st.plant_name ≠ pname <;> simp [hn]

theorem dayLoop_days_outside (srv : ServerModel) (hp : Bool) (n : Int) :
    ∀ (dates : List Date) (st : SyncState) (dc : Nat) (d' : Date), d' ∉ dates →
      alookup (dayLoop srv hp n dates st dc).st.days d' = alookup st.days d' := by
  intro dates
  induction dates with
  | nil => intro st dc d' h; rfl
  | cons d rest ih =>
      intro st dc d' h
      have hne : d' ≠ d := fun hh => h (hh ▸ List.mem_cons_self d rest)
      have hrest : d' ∉ rest := fun hh => h (List.mem_cons_of_mem d hh)
      unfold dayLoop
      cases srv.day_detail d with
      | error e => rfl
      | ok pd =>
          dsimp only
          rw [ih _ _ _ hrest, processDayData_days_ne _ _ _ _ _ hne]

theorem alookup_month_step (days : List (Date × ShinePhoneDayData)) (dk : Date)
    (e : ℚ) (d' : Date) (h : (alookup days d').isSome) :
    (alookup (mapEntry (ensureKey days dk ⟨dk, 0, []⟩) dk
        (fun r => { r with todayenergy := e })) d').isSome ∧
    (alookup (mapEntry (ensureKey days dk ⟨dk, 0, []⟩) dk
        (fun r => { r with todayenergy := e })) d').map ShinePhoneDayData.samples =
      (alookup days d').map ShinePhoneDayData.samples := by
  by_cases hk : d' = dk
  · subst hk
    have he : alookup (ensureKey days d' ⟨d', 0, []⟩) d' = alookup days d' :=
      alookup_ensureKey_of_isSome _ _ _ _ h
    rw [alookup_mapEntry_eq, he]
    cases hv : alookup days d' with
    | none => rw [hv] at h; cases h
    | some r => exact ⟨rfl, rfl⟩
  · rw [alookup_mapEntry_ne _ _ _ _ hk, alookup_ensureKey_ne _ _ _ _ hk]
    exact ⟨h, rfl⟩

theorem processMonthData_samples (y m : Nat) :
    ∀ (mdata : List (Nat × ℚ)) (st : SyncState) (d' : Date),
      (alookup st.days d').isSome →
      (alookup (processMonthData st y m mdata).days d').isSome ∧
      (alookup (processMonthData st y m mdata).days d').map ShinePhoneDayData.samples =
        (alookup st.days d').map ShinePhoneDayData.samples := by
  intro mdata
  induction mdata with
  | nil => intro st d' h; exact ⟨h, rfl⟩
  | cons de rest ih =>
      intro st d' h
      have hstep :
          processMonthData st y m (de :: rest) =
          processMonthData
            { st with days :=
                (mapEntry (ensureKey st.days ⟨y, m, de.1⟩ ⟨⟨y, m, de.1⟩, 0, []⟩)
                  ⟨y, m, de.1⟩ (fun r => { r with todayenergy := de.2 })) }
            y m rest := rfl
      rw [hstep]
      obtain ⟨ha, hb⟩ := alookup_month_step st.days ⟨y, m, de.1⟩ de.2 d' h
      obtain ⟨hc, hd⟩ :=
        ih { st with days :=
              (mapEntry (ensureKey st.days ⟨y, m, de.1⟩ ⟨⟨y, m, de.1⟩, 0, []⟩)
                ⟨y, m, de.1⟩ (fun r => { r with todayenergy := de.2 })) }
          d' ha
      refine ⟨hc, ?_⟩
      rw [hd]
      exact hb

theorem monthLoop_samples (srv : ServerModel) :
    ∀ (months : List (Nat × Nat)) (st : SyncState) (d' : Date),
      (alookup st.days d').isSome →
      (alookup (monthLoop srv months st).1.days d').isSome ∧
      (alookup (monthLoop srv months st).1.days d').map ShinePhoneDayData.samples =
        (alookup st.days d').map ShinePhoneDayData.samples := by
  intro months
  induction months with
  | nil => intro st d' h; exact ⟨h, rfl⟩
  | cons ym rest ih =>
      intro st d' h
      unfold monthLoop
      cases srv.month_detail ym.1 ym.2 with
      | error e => exact ⟨h, rfl⟩
      | ok mdata =>
          dsimp only
          obtain ⟨ha, hb⟩ := processMonthData_samples ym.1 ym.2 mdata st d' h
          obtain ⟨hc, hd⟩ := ih (processMonthData st ym.1 ym.2 mdata) d' ha
          exact ⟨hc, by rw [hd, hb]⟩

theorem dayLoop_fetched_subset (srv : ServerModel) (hp : Bool) (n : Int) :
    ∀ (dates : List Date) (st : SyncState) (dc : Nat) (d : Date),
      d ∈ (dayLoop srv hp n dates st dc).fetched → d ∈ dates := by
  intro dates
  induction dates with
  | nil => intro st dc d h; cases h
  | cons dd rest ih =>
      intro st dc d h
      unfold dayLoop at h
      cases hdd : srv.day_detail dd with
      | error e =>
          rw [hdd] at h
          dsimp only at h
          rcases List.mem_cons.mp h with hh | hh
          · exact hh ▸ List.mem_cons_self dd rest
          · cases hh
      | ok pd =>
          rw [hdd] at h
          dsimp only at h
          rcases List.mem_cons.mp h with hh | hh
          · exact hh ▸ List.mem_cons_self dd rest
          · exact List.mem_cons_of_mem dd (ih _ _ d hh)

theorem dayLoop_progress_ok (srv : ServerModel) (n : Int) :
    ∀ (dates : List Date) (st : SyncState) (dc : Nat),
      (dayLoop srv true n dates st dc).ok = true →
      (dayLoop srv true n dates st dc).progress =
        (List.range dates.length).map (fun k => progressValue (dc + k + 1) n) := by
  intro dates
  induction dates with
  | nil => intro st dc _; rfl
  | cons d rest ih =>
      intro st dc h
      unfold dayLoop at h ⊢
      cases hd : srv.day_detail d with
      | error e =>
          rw [hd] at h
          dsimp only at h
          cases h
      | ok pd =>
          rw [hd] at h
          dsimp only at h ⊢
          rw [ih _ _ h, List.length_cons, List.range_succ_eq_map]
          simp only [if_true, List.map_cons, List.map_map, Function.comp, Nat.add_zero,
            List.singleton_append]
          congr 1
          apply List.map_congr_left
          intro k hk
          have hcnt : dc + 1 + k + 1 = dc + (k + 1) + 1 := by omega
          rw [hcnt]
          rfl

theorem dayLoop_progress_zero (srv : ServerModel) (n : Int) (dates : List Date)
    (st : SyncState) (h : (dayLoop srv true n dates st 0).ok = true) :
    (dayLoop srv true n dates st 0).progress =
      (List.range dates.length).map (fun k => progressValue (k + 1) n) := by
  rw [dayLoop_progress_ok srv n dates st 0 h]
  apply List.map_congr_left
  intro k hk
  have hz : 0 + k + 1 = k + 1 := by omega
  rw [hz]

theorem dayMonth_days_samples (srv : ServerModel) (hp : Bool) (n : Int)
    (dates : List Date) (months : List (Nat × Nat)) (stIn : SyncState) (d' : Date)
    (hmem : (alookup stIn.days d').isSome) (hnot : d' ∉ dates) :
    (alookup (monthLoop srv months (dayLoop srv hp n dates stIn 0).st).1.days d').map
        ShinePhoneDayData.samples =
      (alookup stIn.days d').map ShinePhoneDayData.samples := by
  have h1 := dayLoop_days_outside srv hp n dates stIn 0 d' hnot
  obtain ⟨ha, hb⟩ := monthLoop_samples srv months (dayLoop srv hp n dates stIn 0).st d'
    (by rw [h1]; exact hmem)
  rw [hb, h1]

theorem download_login_fail (srv : ServerModel) (hp : Bool) (st0 : SyncState)
    (s e : Date) (f : GrowattFailure) (h : srv.login = some f) :
    downloadgrowattdata srv hp st0 s e = ⟨st0, false, [], []⟩ := by
  unfold downloadgrowattdata
  rw [h]

theorem download_days_samples_outside (srv : ServerModel) (hp : Bool)
    (st0 : SyncState) (s e : Date) (d' : Date)
    (hmem : (alookup st0.days d').isSome) (hnot : d' ∉ daterange s e) :
    (alookup (downloadgrowattdata srv hp st0 s e).st.days d').map
        ShinePhoneDayData.samples =
      (alookup st0.days d').map ShinePhoneDayData.samples := by
  unfold downloadgrowattdata
  cases srv.login with
  | some f => rfl
  | none =>
      cases srv.plant_list with
      | error f => rfl
      | ok pid =>
          cases srv.total_detail with
          | error f => rfl
          | ok tot =>
              dsimp only
              split
              · exact dayMonth_days_samples srv hp _ _ _ _ d' hmem hnot
              · rw [dayLoop_days_outside srv hp _ _ _ 0 d' hnot]

theorem download_fetched_subset (srv : ServerModel) (hp : Bool) (st0 : SyncState)
    (s e : Date) (d : Date) :
    d ∈ (downloadgrowattdata srv hp st0 s e).fetched → d ∈ daterange s e := by
  unfold downloadgrowattdata
  cases srv.login with
  | some f => intro h; cases h
  | none =>
      cases srv.plant_list with
      | error f => intro h; cases h
      | ok pid =>
          cases srv.total_detail with
          | error f => intro h; cases h
          | ok tot =>
              dsimp only
              intro h
              split at h
              · exact dayLoop_fetched_subset srv hp _ _ _ _ d h
              · exact dayLoop_fetched_subset srv hp _ _ _ _ d h

theorem download_progress_of_ok (srv : ServerModel) (st0 : SyncState) (s e : Date)
    (h : (downloadgrowattdata srv true st0 s e).result = true) :
    (downloadgrowattdata srv true st0 s e).progress =
      (List.range (dateDiff e s + 1).toNat).map
        (fun k => progressValue (k + 1) (dateDiff e s + 1)) := by
  have hlen : (daterange s e).length = (dateDiff e s + 1).toNat := by
    rw [daterange, dateList_length]
  unfold downloadgrowattdata at h ⊢
  cases hl : srv.login with
  | some f => rw [hl] at h; dsimp only at h; cases h
  | none =>
      rw [hl] at h
      cases hpl : srv.plant_list with
      | error f => rw [hpl] at h; dsimp only at h; cases h
      | ok pid =>
          rw [hpl] at h
          cases htd : srv.total_detail with
          | error f => rw [htd] at h; dsimp only at h; cases h
          | ok tot =>
              rw [htd] at h
              dsimp only at h ⊢
              rw [← hlen]
              split at h
              · next hok =>
                  simp only [hok, if_true]
                  exact dayLoop_progress_zero srv _ _ _ hok
              · next hok => dsimp only at h; cases h

theorem runSync_cache_some (inp : SyncInput)
    (c : Bool × ℚ × List (Date × ShinePhoneDayData)) (h : inp.cache = some c) :
    runSync inp =
      runSyncCore inp ⟨c.2.2, c.1, c.2.1, [], "plant_id", "plant_name"⟩
        (if c.2.2.length > 0 then maxKeyOf c.2.2 else ⟨inp.year, 1, 1⟩)
        (if inp.year = inp.now.year then inp.now else ⟨inp.year, 12, 31⟩) := by
  unfold runSync
  rw [h]

theorem runSync_cache_none (inp : SyncInput) (h : inp.cache = none) :
    runSync inp =
      runSyncCore inp ⟨[], false, 0, [], "", ""⟩ ⟨inp.year, 1, 1⟩
        (if inp.year = inp.now.year then inp.now else ⟨inp.year, 12, 31⟩) := by
  unfold runSync
  rw [h]

theorem runSyncCore_of_complete (inp : SyncInput) (st0 : SyncState) (s e : Date)
    (h : st0.year_complete = true) :
    runSyncCore inp st0 s e =
      ⟨st0, s, e, false, none, false, [], [],
        availableYearsOf (yearsavailablelocally inp.pickle_template inp.files)
          (st0.yearsavailableonserver.map Prod.fst)⟩ := by
  simp [runSyncCore, h]

theorem runSyncCore_of_fetch (inp : SyncInput) (st0 : SyncState) (s e : Date)
    (h : st0.year_complete = false) :
    runSyncCore inp st0 s e =
      (let dl := downloadgrowattdata inp.server inp.setprogress st0 s e
       if dl.result then
         (let st1 :=
            if s.year < inp.now.year then { dl.st with year_complete := true } else dl.st
          ⟨st1, s, e, true, some true, true, dl.fetched, dl.progress,
            availableYearsOf (yearsavailablelocally inp.pickle_template inp.files)
              (st1.yearsavailableonserver.map Prod.fst)⟩)
       else
         ⟨(downloadgrowattdata inp.server inp.setprogress st0 s e).st, s, e, true,
           some false, false, dl.fetched, dl.progress,
           availableYearsOf (yearsavailablelocally inp.pickle_template inp.files)
             (dl.st.yearsavailableonserver.map Prod.fst)⟩) := by
  simp [runSyncCore, h]

theorem runSyncCore_years (inp : SyncInput) (st0 : SyncState) (s e : Date) :
    (runSyncCore inp st0 s e).yearsavailable =
      availableYearsOf (yearsavailablelocally inp.pickle_template inp.files)
        ((runSyncCore inp st0 s e).st.yearsavailableonserver.map Prod.fst) := by
  unfold runSyncCore
  dsimp only
  split
  · rfl
  · split
    · rfl
    · rfl

theorem mem_addServerYears (s : List Int) :
    ∀ (l : List Int) (z : Int), z ∈ addServerYears l s ↔ z ∈ l ∨ z ∈ s := by
  induction s with
  | nil => intro l z; simp [addServerYears]
  | cons y rest ih =>
      intro l z
      show z ∈ addServerYears (if y ∈ l then l else l ++ [y]) rest ↔ _
      rw [ih]
      by_cases hy : y ∈ l
      · simp only [hy, if_true, List.mem_cons]
        constructor
        · rintro (h | h)
          · exact Or.inl h
          · exact Or.inr (Or.inr h)
        · rintro (h | h | h)
          · exact Or.inl h
          · exact Or.inl (h ▸ hy)
          · exact Or.inr h
      · simp only [hy, if_false, List.mem_append, List.mem_singleton, List.mem_cons]
        tauto

theorem nodup_addServerYears (s : List Int) :
    ∀ l : List Int, l.Nodup → (addServerYears l s).Nodup := by
  induction s with
  | nil => intro l h; exact h
  | cons y rest ih =>
      intro l h
      show (addServerYears (if y ∈ l then l else l ++ [y]) rest).Nodup
      apply ih
      by_cases hy : y ∈ l
      · simpa [hy] using h
      · simp only [hy, if_false]
        rw [List.nodup_append]
        refine ⟨h, List.nodup_singleton y, ?_⟩
        intro a ha hb
        rw [List.mem_singleton] at hb
        exact hy (hb ▸ ha)

theorem sorted_availableYearsOf (l s : List Int) :
    List.Sorted (fun a b => a ≤ b) (availableYearsOf l s) :=
  List.sorted_insertionSort _ _

theorem mem_availableYearsOf (l s : List Int) (z : Int) :
    z ∈ availableYearsOf l s ↔ z ∈ l ∨ z ∈ s := by
  unfold availableYearsOf
  rw [List.mem_insertionSort]
  exact mem_addServerYears s l z

theorem nodup_availableYearsOf (l s : List Int) (h : l.Nodup) :
    (availableYearsOf l s).Nodup := by
  unfold availableYearsOf
  exact ((List.perm_insertionSort _ _).nodup_iff).mpr (nodup_addServerYears s l h)

theorem runSyncCore_start_end (inp : SyncInput) (st0 : SyncState) (s e : Date) :
    (runSyncCore inp st0 s e).start_date = s ∧ (runSyncCore inp st0 s e).end_date = e := by
  unfold runSyncCore
  dsimp only
  split
  · exact ⟨rfl, rfl⟩
  · split
    · exact ⟨rfl, rfl⟩
    · exact ⟨rfl, rfl⟩

theorem runSyncCore_fetched (inp : SyncInput) (st0 : SyncState) (s e : Date)
    (h0 : st0.year_complete = false) :
    (runSyncCore inp st0 s e).fetched =
      (downloadgrowattdata inp.server inp.setprogress st0 s e).fetched := by
  rw [runSyncCore_of_fetch inp st0 s e h0]
  dsimp only
  split
  · rfl
  · rfl

theorem runSyncCore_days (inp : SyncInput) (st0 : SyncState) (s e : Date)
    (h0 : st0.year_complete = false) :
    (runSyncCore inp st0 s e).st.days =
      (downloadgrowattdata inp.server inp.setprogress st0 s e).st.days := by
  rw [runSyncCore_of_fetch inp st0 s e h0]
  dsimp only
  split
  · dsimp only
    split
    · rfl
    · rfl
  · rfl

theorem runSyncCore_fetchOk_spec (inp : SyncInput) (st0 : SyncState) (s e : Date)
    (h0 : st0.year_complete = false)
    (h : (runSyncCore inp st0 s e).fetchOk = some true) :
    (runSyncCore inp st0 s e).st.year_complete = decide (s.year < inp.now.year) ∧
    (runSyncCore inp st0 s e).saved = true := by
  rw [runSyncCore_of_fetch inp st0 s e h0] at h ⊢
  dsimp only at h ⊢
  by_cases hok : (downloadgrowattdata inp.server inp.setprogress st0 s e).result = true
  · rw [if_pos hok] at h ⊢
    refine ⟨?_, rfl⟩
    dsimp only
    by_cases hlt : s.year < inp.now.year
    · rw [if_pos hlt]
      simp [hlt]
    · rw [if_neg hlt]
      rw [download_year_complete, h0]
      simp [hlt]
  · rw [if_neg hok] at h
    dsimp only at h
    cases h

theorem runSyncCore_fetch_fail_spec (inp : SyncInput) (st0 : SyncState) (s e : Date)
    (h0 : st0.year_complete = false)
    (h : (runSyncCore inp st0 s e).fetchOk = some false) :
    (runSyncCore inp st0 s e).saved = false ∧
    (runSyncCore inp st0 s e).st.year_complete = false ∧
    (runSyncCore inp st0 s e).st.days =
      (downloadgrowattdata inp.server inp.setprogress st0 s e).st.days ∧
    (runSyncCore inp st0 s e).st.yearproduction =
      (downloadgrowattdata inp.server inp.setprogress st0 s e).st.yearproduction := by
  rw [runSyncCore_of_fetch inp st0 s e h0] at h ⊢
  dsimp only at h ⊢
  by_cases hok : (downloadgrowattdata inp.server inp.setprogress st0 s e).result = true
  · rw [if_pos hok] at h
    dsimp only at h
    cases h
  · rw [if_neg hok]
    refine ⟨rfl, ?_, rfl, rfl⟩
    dsimp only
    rw [download_year_complete, h0]

/-! ### Claim C5 -/

/-- Claim C5: for a year whose loaded cache snapshot has `complete == true`,
the sync call performs zero network requests (the download is never invoked:
no login, plant, day or month request is issued, no date is fetched and no
progress is reported), does not write the cache file, and returns the loaded
snapshot unchanged. -/
theorem c5_complete_cache_skips_network (inp : SyncInput) (yp : ℚ)
    (ds : List (Date × ShinePhoneDayData)) (h : inp.cache = some (true, yp, ds)) :
    (runSync inp).fetchAttempted = false ∧
    (runSync inp).fetchOk = none ∧
    (runSync inp).saved = false ∧
    (runSync inp).fetched = [] ∧
    (runSync inp).progress = [] ∧
    (runSync inp).st.days = ds ∧
    (runSync inp).st.year_complete = true ∧
    (runSync inp).st.yearproduction = yp := by
  rw [runSync_cache_some inp (true, yp, ds) h,
    runSyncCore_of_complete _ _ _ _ rfl]
  exact ⟨rfl, rfl, rfl, rfl, rfl, rfl, rfl, rfl⟩

/-- Witness for C5 on a concrete complete cache. -/
theorem c5_witness :
    inputCompleteCache.cache =
      some (true, 7, [(⟨2020, 1, 1⟩, ⟨⟨2020, 1, 1⟩, 2, []⟩)]) ∧
    ((runSync inputCompleteCache).fetchAttempted = false ∧
     (runSync inputCompleteCache).fetchOk = none ∧
     (runSync inputCompleteCache).saved = false ∧
     (runSync inputCompleteCache).fetched = [] ∧
     (runSync inputCompleteCache).progress = [] ∧
     (runSync inputCompleteCache).st.days =
       [(⟨2020, 1, 1⟩, ⟨⟨2020, 1, 1⟩, 2, []⟩)] ∧
     (runSync inputCompleteCache).st.year_complete = true ∧
     (runSync inputCompleteCache).st.yearproduction = 7) :=
  ⟨rfl, c5_complete_cache_skips_network inputCompleteCache 7
    [(⟨2020, 1, 1⟩, ⟨⟨2020, 1, 1⟩, 2, []⟩)] rfl⟩

/-! ### Claim C4 -/

/-- Claim C4: after a successful fetch, the snapshot's complete flag is true
if and only if the queried start date's year is strictly below the current
calendar year, and the snapshot is then persisted via the pickle save. -/
theorem c4_completeness_decision (inp : SyncInput)
    (h : (runSync inp).fetchOk = some true) :
    (runSync inp).st.year_complete =
      decide ((runSync inp).start_date.year < inp.now.year) ∧
    (runSync inp).saved = true := by
  rcases hc : inp.cache with _ | c
  · rw [runSync_cache_none inp hc] at h ⊢
    obtain ⟨h1, h2⟩ := runSyncCore_fetchOk_spec _ _ _ _ rfl h
    refine ⟨?_, h2⟩
    rw [h1, (runSyncCore_start_end _ _ _ _).1]
  · rcases c with ⟨yc, yp, ds⟩
    rw [runSync_cache_some inp (yc, yp, ds) hc] at h ⊢
    cases yc
    · obtain ⟨h1, h2⟩ := runSyncCore_fetchOk_spec _ _ _ _ rfl h
      refine ⟨?_, h2⟩
      rw [h1, (runSyncCore_start_end _ _ _ _).1]
    · rw [runSyncCore_of_complete _ _ _ _ rfl] at h
      cases h

/-- Witness for C4: a successful two-day fetch of the past year 2019 marks
the snapshot complete and persists it. -/
theorem c4_witness :
    (runSync inputPastYear).fetchOk = some true ∧
    ((runSync inputPastYear).st.year_complete =
        decide ((runSync inputPastYear).start_date.year < inputPastYear.now.year) ∧
     (runSync inputPastYear).saved = true) :=
  ⟨by decide, c4_completeness_decision inputPastYear (by decide)⟩

/-! ### Claim C6 -/

/-- Counterexample to claim C6: with an empty pre-fetch snapshot, the Jan 2
connection failure is caught and nothing is saved, but the caller's snapshot
is NOT the pre-fetch snapshot — the Jan 1 day record merged before the
failure stays in `self.days`. -/
theorem c6_counterexample :
    (runSync inputDayFail).fetchOk = some false ∧
    (runSync inputDayFail).saved = false ∧
    cacheDays inputDayFail = [] ∧
    (runSync inputDayFail).st.days ≠ [] :=
  ⟨by decide, by decide, rfl, by decide⟩

/-- Claim C6 (amended): every fetch failure is caught inside the engine (the
model is a total function: no exception escapes), reported as `result =
False`, and the cache file is not written and the snapshot is never marked
complete; the in-memory snapshot retains whatever was merged before the
failure, and when the failure happens at login — before any data arrives —
the day map and annual production are exactly the loaded pre-fetch values. -/
theorem c6_amended_failure_contained (inp : SyncInput)
    (h : (runSync inp).fetchOk = some false) :
    (runSync inp).saved = false ∧
    (runSync inp).st.year_complete = false ∧
    (inp.server.login ≠ none →
      (runSync inp).st.days = cacheDays inp ∧
      (runSync inp).st.yearproduction = cacheProd inp) := by
  have hlogin : ∀ (st0 : SyncState) (s e : Date), inp.server.login ≠ none →
      (downloadgrowattdata inp.server inp.setprogress st0 s e).st = st0 := by
    intro st0 s e hl
    cases hll : inp.server.login with
    | none => exact absurd hll hl
    | some f => rw [download_login_fail _ _ _ _ _ f hll]
  rcases hc : inp.cache with _ | c
  · rw [runSync_cache_none inp hc] at h ⊢
    obtain ⟨h1, h2, h3, h4⟩ := runSyncCore_fetch_fail_spec _ _ _ _ rfl h
    have hcd : cacheDays inp = [] := by unfold cacheDays; rw [hc]
    have hcp : cacheProd inp = 0 := by unfold cacheProd; rw [hc]
    refine ⟨h1, h2, fun hl => ⟨?_, ?_⟩⟩
    · rw [h3, hlogin _ _ _ hl, hcd]
    · rw [h4, hlogin _ _ _ hl, hcp]
  · rcases c with ⟨yc, yp, ds⟩
    rw [runSync_cache_some inp (yc, yp, ds) hc] at h ⊢
    cases yc
    · obtain ⟨h1, h2, h3, h4⟩ := runSyncCore_fetch_fail_spec _ _ _ _ rfl h
      have hcd : cacheDays inp = ds := by unfold cacheDays; rw [hc]
      have hcp : cacheProd inp = yp := by unfold cacheProd; rw [hc]
      refine ⟨h1, h2, fun hl => ⟨?_, ?_⟩⟩
      · rw [h3, hlogin _ _ _ hl, hcd]
      · rw [h4, hlogin _ _ _ hl, hcp]
    · rw [runSyncCore_of_complete _ _ _ _ rfl] at h
      cases h

/-- Witness for the amended C6 on a concrete rejected login. -/
theorem c6_amended_witness :
    (runSync inputLoginFail).fetchOk = some false ∧
    ((runSync inputLoginFail).saved = false ∧
     (runSync inputLoginFail).st.year_complete = false ∧
     (inputLoginFail.server.login ≠ none →
       (runSync inputLoginFail).st.days = cacheDays inputLoginFail ∧
       (runSync inputLoginFail).st.yearproduction = cacheProd inputLoginFail)) :=
  ⟨by decide, c6_amended_failure_contained inputLoginFail (by decide)⟩

/-! ### Claim C8 -/

/-- Counterexample to claim C8: two cache filenames whose wildcard tokens both
parse to year 20 (`"0020"` and `"+020"`) make the returned available-years
list `[20, 20]` — sorted, but not duplicate-free, so it is not the
duplicate-free union the claim describes. -/
theorem c8_counterexample :
    (runSync inputDupYears).yearsavailable = [20, 20] ∧
    ¬ (runSync inputDupYears).yearsavailable.Nodup :=
  ⟨by decide, by decide⟩

/-- Claim C8 (amended): the returned available-years list is always sorted
ascending and contains exactly the union of the locally extracted years and
the server-reported years (the latter empty when the Timespan.total fetch was
skipped or failed); server years are deduplicated against the list, so the
result is duplicate-free whenever the locally extracted year list is — but
duplicate local extractions are passed through. -/
theorem c8_amended_available_years (inp : SyncInput) :
    List.Sorted (fun a b => a ≤ b) (runSync inp).yearsavailable ∧
    (∀ z : Int, z ∈ (runSync inp).yearsavailable ↔
      (z ∈ yearsavailablelocally inp.pickle_template inp.files ∨
       z ∈ (runSync inp).st.yearsavailableonserver.map Prod.fst)) ∧
    ((yearsavailablelocally inp.pickle_template inp.files).Nodup →
      (runSync inp).yearsavailable.Nodup) := by
  have hy : (runSync inp).yearsavailable =
      availableYearsOf (yearsavailablelocally inp.pickle_template inp.files)
        ((runSync inp).st.yearsavailableonserver.map Prod.fst) := by
    rcases hc : inp.cache with _ | c
    · rw [runSync_cache_none inp hc]
      exact runSyncCore_years _ _ _ _
    · rw [runSync_cache_some inp c hc]
      exact runSyncCore_years _ _ _ _
  rw [hy]
  exact ⟨sorted_availableYearsOf _ _, fun z => mem_availableYearsOf _ _ z,
    fun hn => nodup_availableYearsOf _ _ hn⟩

/-- Witness for the amended C8: the duplicate-year directory still yields a
sorted list. -/
theorem c8_amended_witness :
    List.Sorted (fun a b => a ≤ b) (runSync inputDupYears).yearsavailable :=
  (c8_amended_available_years inputDupYears).1

/-! ### Claim C3 -/

theorem runSyncCore_progress_spec (inp : SyncInput) (st0 : SyncState) (s e : Date)
    (h0 : st0.year_complete = false)
    (h : (runSyncCore inp st0 s e).fetchOk = some true)
    (hsp : inp.setprogress = true) :
    (runSyncCore inp st0 s e).progress =
      (List.range (dateDiff e s + 1).toNat).map
        (fun k => progressValue (k + 1) (dateDiff e s + 1)) := by
  rw [runSyncCore_of_fetch inp st0 s e h0] at h ⊢
  dsimp only at h ⊢
  by_cases hok : (downloadgrowattdata inp.server inp.setprogress st0 s e).result = true
  · rw [if_pos hok]
    dsimp only
    rw [hsp] at hok ⊢
    exact download_progress_of_ok inp.server st0 s e hok
  · rw [if_neg hok] at h
    dsimp only at h
    cases h

/-- Counterexample to claim C3: on a three-day fetch of Jan 1–3 the sink
receives `int(...)`-truncated values `[33, 66, 100]`, while the claimed
`round(100 * daysProcessed / totalDays)` values are `[33, 67, 100]` — they
differ on the second day, where `round(200/3) = 67` but the code reports 66. -/
theorem c3_counterexample :
    (runSync inputThreeDays).progress = [33, 66, 100] ∧
    (runSync inputThreeDays).progress ≠
      [pythonRound (mkRat 100 3), pythonRound (mkRat 200 3), pythonRound (mkRat 300 3)] :=
  ⟨by decide, by decide⟩

/-- Claim C3 (amended): during a successful per-day fetch with a progress sink
supplied, the sink is invoked exactly once per date of the inclusive range
with `int(100 * daysProcessed / totalDays)` — the value truncated toward zero
(Python `int()`), not `round(...)`. -/
theorem c3_amended_progress_truncation (inp : SyncInput)
    (hok : (runSync inp).fetchOk = some true) (hsp : inp.setprogress = true) :
    (runSync inp).progress =
      (List.range
          (dateDiff (runSync inp).end_date (runSync inp).start_date + 1).toNat).map
        (fun k =>
          progressValue (k + 1)
            (dateDiff (runSync inp).end_date (runSync inp).start_date + 1)) := by
  rcases hc : inp.cache with _ | c
  · rw [runSync_cache_none inp hc] at hok ⊢
    rw [(runSyncCore_start_end _ _ _ _).1, (runSyncCore_start_end _ _ _ _).2]
    exact runSyncCore_progress_spec _ _ _ _ rfl hok hsp
  · rcases c with ⟨yc, yp, ds⟩
    rw [runSync_cache_some inp (yc, yp, ds) hc] at hok ⊢
    cases yc
    · rw [(runSyncCore_start_end _ _ _ _).1, (runSyncCore_start_end _ _ _ _).2]
      exact runSyncCore_progress_spec _ _ _ _ rfl hok hsp
    · rw [runSyncCore_of_complete _ _ _ _ rfl] at hok
      cases hok

/-- Witness for the amended C3 on the concrete three-day fetch. -/
theorem c3_amended_witness :
    (runSync inputThreeDays).fetchOk = some true ∧
    inputThreeDays.setprogress = true ∧
    (runSync inputThreeDays).progress =
      (List.range
          (dateDiff (runSync inputThreeDays).end_date
              (runSync inputThreeDays).start_date + 1).toNat).map
        (fun k =>
          progressValue (k + 1)
            (dateDiff (runSync inputThreeDays).end_date
              (runSync inputThreeDays).start_date + 1)) :=
  ⟨by decide, rfl, c3_amended_progress_truncation inputThreeDays (by decide) rfl⟩

/-! ### Claim C1 -/

/-- Counterexample to claim C1: with the cache populated through March 10 of
the current year, the per-day fetch range starts AT March 10 — the latest
cached date key itself — not at March 11: March 10 is re-fetched. -/
theorem c1_counterexample :
    (runSync inputMarchCache).start_date = ⟨2020, 3, 10⟩ ∧
    (⟨2020, 3, 10⟩ : Date) ∈ (runSync inputMarchCache).fetched ∧
    (runSync inputMarchCache).start_date ≠ ⟨2020, 3, 11⟩ :=
  ⟨by decide, by decide, by decide⟩

/-- Claim C1 (amended): for a sync on a year whose cache file exists, is not
complete and has a non-empty day map (all keys valid dates), the fetch range
starts at the latest cached date key itself, which is re-fetched; every
per-day-fetched date is on or after that key, and every cached DayRecord
strictly before it keeps its sample map unchanged (its daily total may still
be overwritten by the month-level fetch). -/
theorem c1_amended_resume_from_latest (inp : SyncInput) (yp : ℚ)
    (ds : List (Date × ShinePhoneDayData)) (hc : inp.cache = some (false, yp, ds))
    (hne : ds ≠ []) (hv : ∀ p ∈ ds, Date.valid p.1) :
    (runSync inp).start_date = maxKeyOf ds ∧
    (∀ d ∈ (runSync inp).fetched, (maxKeyOf ds).key ≤ d.key) ∧
    (∀ p ∈ ds, p.1.key < (maxKeyOf ds).key →
      (alookup (runSync inp).st.days p.1).map ShinePhoneDayData.samples =
        (alookup ds p.1).map ShinePhoneDayData.samples) := by
  have hlen : ds.length > 0 := by
    cases ds with
    | nil => exact absurd rfl hne
    | cons a t => simp
  have hmax_valid : (maxKeyOf ds).valid := by
    rcases List.mem_map.mp (maxKeyOf_mem ds hne) with ⟨p, hp, hpe⟩
    exact hpe ▸ hv p hp
  rw [runSync_cache_some inp (false, yp, ds) hc]
  dsimp only
  rw [if_pos hlen]
  refine ⟨(runSyncCore_start_end _ _ _ _).1, ?_, ?_⟩
  · intro d hd
    rw [runSyncCore_fetched _ _ _ _ rfl] at hd
    have hd' := download_fetched_subset _ _ _ _ _ d hd
    exact (dateList_valid hmax_valid _ d hd').2
  · intro p hp hlt
    have hsome : (alookup ds p.1).isSome := alookup_isSome_mem ds p hp
    have hnotin : p.1 ∉ daterange (maxKeyOf ds)
        (if inp.year = inp.now.year then inp.now else ⟨inp.year, 12, 31⟩) := by
      intro hmem2
      have hk := (dateList_valid hmax_valid _ p.1 hmem2).2
      omega
    rw [runSyncCore_days _ _ _ _ rfl]
    exact download_days_samples_outside _ _ _ _ _ p.1 hsome hnotin

/-- Witness for the amended C1 on the concrete March cache. -/
theorem c1_amended_witness :
    inputMarchCache.cache = some (false, 0, marchCacheDays) ∧
    marchCacheDays ≠ [] ∧
    (∀ p ∈ marchCacheDays, Date.valid p.1) ∧
    ((runSync inputMarchCache).start_date = maxKeyOf marchCacheDays ∧
     (∀ d ∈ (runSync inputMarchCache).fetched, (maxKeyOf marchCacheDays).key ≤ d.key) ∧
     (∀ p ∈ marchCacheDays, p.1.key < (maxKeyOf marchCacheDays).key →
       (alookup (runSync inputMarchCache).st.days p.1).map ShinePhoneDayData.samples =
         (alookup marchCacheDays p.1).map ShinePhoneDayData.samples)) :=
  ⟨rfl, by decide, by decide,
    c1_amended_resume_from_latest inputMarchCache 0 marchCacheDays rfl
      (by decide) (by decide)⟩

/-! ### Claim C7: the password-digest transform -/

theorem drop_getElem_shift {α : Type} :
    ∀ (l : List α) (n m : Nat), (l.drop n)[m]? = l[n + m]? := by
  intro l
  induction l with
  | nil => intro n m; simp
  | cons a t ih =>
      intro n m
      cases n with
      | zero => simp
      | succ n =>
          show (t.drop n)[m]? = _
          rw [ih n m]
          have hnm : n + 1 + m = (n + m) + 1 := by omega
          rw [hnm, List.getElem?_cons_succ]

theorem replace0_getElem_ne (s : List Char) (i j : Nat) (h : j ≠ i) :
    (replace0 s i)[j]? = s[j]? := by
  unfold replace0
  split
  · next h0 =>
      obtain ⟨hi, _⟩ := List.getElem?_eq_some.mp h0
      have htl : (s.take i).length = i := by
        rw [List.length_take]
        omega
      by_cases hj : j < i
      · rw [List.getElem?_append_left (by rw [htl]; exact hj)]
        exact List.getElem?_take_of_lt hj
      · have hj2 : i < j := by omega
        rw [List.getElem?_append_right (by rw [htl]; omega), htl]
        have hji : j - i = (j - i - 1) + 1 := by omega
        rw [hji, List.getElem?_cons_succ, drop_getElem_shift]
        have hidx : i + 1 + (j - i - 1) = j := by omega
        rw [hidx]
  · rfl

theorem replace0_getElem_eq (s : List Char) (i : Nat) :
    (replace0 s i)[i]? = if s[i]? = some '0' then some 'c' else s[i]? := by
  unfold replace0
  split
  · next h0 =>
      obtain ⟨hi, _⟩ := List.getElem?_eq_some.mp h0
      have htl : (s.take i).length = i := by
        rw [List.length_take]
        omega
      rw [List.getElem?_append_right (by rw [htl]), htl]
      have hz : i - i = 0 := by omega
      rw [hz]
      exact List.getElem?_cons_zero
  · rfl

theorem foldl_replace0_getElem (j : Nat) :
    ∀ (l : List Nat), l.Nodup → ∀ (s : List Char),
      (l.foldl replace0 s)[j]? =
        if j ∈ l ∧ s[j]? = some '0' then some 'c' else s[j]? := by
  intro l
  induction l with
  | nil => intro _ s; simp
  | cons i rest ih =>
      intro hnd s
      obtain ⟨hni, hnd'⟩ := List.nodup_cons.mp hnd
      show (rest.foldl replace0 (replace0 s i))[j]? = _
      rw [ih hnd' (replace0 s i)]
      by_cases hji : j = i
      · subst hji
        rw [if_neg (fun hh => hni hh.1), replace0_getElem_eq]
        by_cases h0 : s[j]? = some '0'
        · rw [if_pos h0, if_pos ⟨List.mem_cons_self _ _, h0⟩]
        · rw [if_neg h0, if_neg (fun hh => h0 hh.2)]
      · rw [replace0_getElem_ne s i j hji]
        by_cases hjr : j ∈ rest ∧ s[j]? = some '0'
        · rw [if_pos hjr, if_pos ⟨List.mem_cons_of_mem _ hjr.1, hjr.2⟩]
        · rw [if_neg hjr,
            if_neg (fun hh => hjr ⟨(List.mem_cons.mp hh.1).resolve_left hji, hh.2⟩)]

theorem hashSpecFrom_getElem :
    ∀ (s : List Char) (k j : Nat),
      (hashSpecFrom k s)[j]? =
        (s[j]?).map (fun c => if (k + j) % 2 = 0 ∧ c = '0' then 'c' else c) := by
  intro s
  induction s with
  | nil => intro k j; simp [hashSpecFrom]
  | cons c cs ih =>
      intro k j
      cases j with
      | zero => simp [hashSpecFrom]
      | succ j =>
          have hunf : hashSpecFrom k (c :: cs) =
              (if k % 2 = 0 ∧ c = '0' then 'c' else c) :: hashSpecFrom (k + 1) cs := rfl
          rw [hunf, List.getElem?_cons_succ, List.getElem?_cons_succ, ih (k + 1) j]
          have hkj : k + 1 + j = k + (j + 1) := by omega
          rw [hkj]

theorem mem_hashIndices (n j : Nat) : j ∈ hashIndices n ↔ j % 2 = 0 ∧ j < n := by
  unfold hashIndices
  rw [List.mem_range']
  constructor
  · rintro ⟨i, hi, rfl⟩
    omega
  · rintro ⟨he, hl⟩
    exact ⟨j / 2, by omega, by omega⟩

/-- Claim C7: for every digest string, `hash_password`'s in-place loop equals
the index-wise transform the spec describes — every character at an even
index that is the digit `'0'` becomes `'c'`, and every other character (odd
indices, and even-index characters other than `'0'`) is unchanged.  (The MD5
hex digest itself is produced by `hashlib`, external to this code base, so
the theorem quantifies over the digest string.) -/
theorem c7_hash_password_even_zero :
    ∀ s : List Char, hash_password s = hashSpec s := by
  intro s
  apply List.ext_getElem?
  intro j
  unfold hash_password hashSpec
  rw [foldl_replace0_getElem j (hashIndices s.length)
      (List.nodup_range' 0 ((s.length + 1) / 2) 2) s,
    hashSpecFrom_getElem s 0 j]
  simp only [mem_hashIndices, Nat.zero_add]
  cases hv : s[j]? with
  | none => simp
  | some c =>
      have hj : j < s.length := by
        by_contra hge
        rw [List.getElem?_eq_none (by omega)] at hv
        cases hv
      by_cases hpar : j % 2 = 0 <;> by_cases hc : c = '0' <;>
        simp [hj, hpar, hc]

/-- Witness for C7 on the digest string `"0a0b0"` (its transform is
`"cacbc"`). -/
theorem c7_witness :
    hash_password ("0a0b0").toList = hashSpec ("0a0b0").toList :=
  c7_hash_password_even_zero ("0a0b0").toList
